import Mathlib

/-!
Verification of the chapter-splitting batch program `chapterSplitsM4a.py`.

The Python source is shallowly embedded below.  Strings are modelled as
`String` / `List Char`; Python integers as `Int` / `Nat`; fallible Python
operations (dict subscripts, `int(...)`, list indexing, the external
`ffmpeg` invocation) return `Except PyErr`.  All definitions are
structurally recursive (fuel is used where the Python recursion pattern is
not structural) so every theorem below can be evaluated by `decide`/`rfl`
on concrete inputs.
-/

/-- ASCII digit test, `48 ≤ c ≤ 57`.  Embeds the digit test made by Python's
`int(...)` on the ASCII strings that reach it in this program (Python would
additionally accept non-ASCII Unicode digits and `_` grouping; no such
input occurs here). -/
def isDigitChar (c : Char) : Bool := 48 ≤ c.toNat ∧ c.toNat ≤ 57

/-- Whitespace as matched by Python's `\s` regex class and `str.strip()` on
ASCII text (all strings reaching these operations in the program have been
ASCII-filtered first): space, TAB, LF, VT, FF, CR, FS, GS, RS, US. -/
def isSpacePy (c : Char) : Bool :=
  c = ' ' ∨ c = '\t' ∨ c = '\n' ∨ c = '\x0b' ∨ c = '\x0c' ∨ c = '\r' ∨
  c = '\x1c' ∨ c = '\x1d' ∨ c = '\x1e' ∨ c = '\x1f'

/-- Word characters as matched by Python's `\w` on ASCII text:
`[A-Za-z0-9_]`. -/
def isWordAscii (c : Char) : Bool :=
  (97 ≤ c.toNat ∧ c.toNat ≤ 122) ∨ (65 ≤ c.toNat ∧ c.toNat ≤ 90) ∨
  (48 ≤ c.toNat ∧ c.toNat ≤ 57) ∨ c = '_'

/-- Character class kept by `re.sub(r"[^\w\s)(_-]", "", value)` in
`slugify` (line 117): word characters, whitespace, `)`, `(`, `_`, `-`. -/
def allowedSlug (c : Char) : Bool :=
  isWordAscii c ∨ isSpacePy c ∨ c = ')' ∨ c = '(' ∨ c = '_' ∨ c = '-'

/-- Decimal digits of `n`, most significant first, with structural fuel
(the fuel `n + 1` always suffices since `n / 10 < n` for `n ≥ 10`). -/
def natDigitsAux : Nat → Nat → List Char
  | 0, _ => []
  | fuel + 1, n =>
    if n < 10 then [Char.ofNat (48 + n)]
    else natDigitsAux fuel (n / 10) ++ [Char.ofNat (48 + n % 10)]

/-- Embeds Python `str(n)` for a natural number `n` (character list). -/
def natDigits (n : Nat) : List Char := natDigitsAux (n + 1) n

/-- Embeds Python `str(n)` for a natural number `n`. -/
def pyStrNat (n : Nat) : String := ⟨natDigits n⟩

/-- Embeds Python `str(i)` for an integer `i`. -/
def pyIntRepr (i : Int) : List Char :=
  if i < 0 then '-' :: natDigits (-i).toNat else natDigits i.toNat

/-- Embeds Python `str.strip()`: drop leading and trailing whitespace. -/
def stripL (s : List Char) : List Char :=
  ((s.dropWhile isSpacePy).reverse.dropWhile isSpacePy).reverse

/-- Embeds Python `str.strip()` at `String` type. -/
def pyStrip (s : String) : String := ⟨stripL s.data⟩

/-- Numeric value of a digit string, most significant digit first. -/
def parseDigits (l : List Char) : Nat :=
  l.foldl (fun a c => a * 10 + (c.toNat - 48)) 0

/-- Embeds Python `int(s)`: strip whitespace, optional sign, then decimal
digits; `none` models the `ValueError` raised on anything else. -/
def pyIntL (s : List Char) : Option Int :=
  let t := stripL s
  let neg := t.headD ' ' = '-'
  let ds := if t.headD ' ' = '-' ∨ t.headD ' ' = '+' then t.drop 1 else t
  if ds ≠ [] ∧ ds.all isDigitChar then
    some (if neg then -(parseDigits ds : Int) else (parseDigits ds : Int))
  else none

/-- Embeds Python `str.zfill(w)`: left-pad with `'0'` to width `w`,
keeping a leading sign character in place. -/
def pyZfillL (w : Nat) (s : List Char) : List Char :=
  if w ≤ s.length then s
  else match s with
    | '-' :: rest => '-' :: (List.replicate (w - s.length) '0' ++ rest)
    | '+' :: rest => '+' :: (List.replicate (w - s.length) '0' ++ rest)
    | _ => List.replicate (w - s.length) '0' ++ s

/-- Embeds Python `s.split(sep)` for a one-character separator `sep`
(used as `time.split(":")` in `HMSToMS`, line 132). -/
def splitOnCharAux (sep : Char) : List Char → List Char → List (List Char)
  | [], acc => [acc.reverse]
  | c :: rest, acc =>
    if c = sep then acc.reverse :: splitOnCharAux sep rest []
    else splitOnCharAux sep rest (c :: acc)

/-- Embeds Python `s.split(sep)` for a one-character separator. -/
def splitOnChar (sep : Char) (s : List Char) : List (List Char) :=
  splitOnCharAux sep s []

/-- Embeds Python `s.split(sep)` for a multi-character separator `sep`
(used as `tagName.split(" - ")`, lines 169-170): leftmost non-overlapping
matches.  Fuel `s.length + 1` always suffices because each step consumes
at least one character. -/
def splitOnSubAux (sep : List Char) : Nat → List Char → List Char → List (List Char)
  | 0, s, acc => [acc.reverse ++ s]
  | fuel + 1, s, acc =>
    match s with
    | [] => [acc.reverse]
    | c :: rest =>
      if sep.isPrefixOf (c :: rest) then
        acc.reverse :: splitOnSubAux sep fuel ((c :: rest).drop sep.length) []
      else splitOnSubAux sep fuel rest (c :: acc)

/-- Embeds Python `s.split(sep)` for a non-empty separator string
(Python raises on an empty separator; the program never passes one). -/
def splitOnSub (s sep : List Char) : List (List Char) :=
  if sep = [] then [s] else splitOnSubAux sep (s.length + 1) s []

/-- Embeds Python `s.replace(pat, rep)`: left-to-right, non-overlapping,
the replacement text is not rescanned.  Fuel `s.length + 1` always
suffices because each step consumes at least one character.  (Python's
`replace` with an empty pattern inserts `rep` at every boundary; every
pattern used by this program is non-empty, and this embedding treats an
empty pattern as a no-op.) -/
def pyReplaceAux (pat rep : List Char) : Nat → List Char → List Char
  | 0, s => s
  | fuel + 1, s =>
    match s with
    | [] => []
    | c :: rest =>
      if pat ≠ [] ∧ pat.isPrefixOf (c :: rest) then
        rep ++ pyReplaceAux pat rep fuel ((c :: rest).drop pat.length)
      else c :: pyReplaceAux pat rep fuel rest

/-- Embeds Python `s.replace(pat, rep)`. -/
def pyReplaceL (s pat rep : List Char) : List Char :=
  pyReplaceAux pat rep (s.length + 1) s

/-- Embeds `re.sub(r"[\s]+", " ", value)` (line 120): each maximal run of
whitespace becomes a single space. -/
def collapseWS : List Char → List Char
  | [] => []
  | [c] => if isSpacePy c then [' '] else [c]
  | c :: d :: rest =>
    if isSpacePy c ∧ isSpacePy d then collapseWS (d :: rest)
    else (if isSpacePy c then ' ' else c) :: collapseWS (d :: rest)

/-- Embeds `re.sub(r"[-\s]+", "-", value)` (line 122, the
`keepSpace=False` branch): each maximal run of whitespace-or-hyphen
becomes a single hyphen. -/
def isDashWS (c : Char) : Bool := isSpacePy c ∨ c = '-'

/-- The `keepSpace=False` collapse of `slugify` (line 122). -/
def collapseDashWS : List Char → List Char
  | [] => []
  | [c] => if isDashWS c then ['-'] else [c]
  | c :: d :: rest =>
    if isDashWS c ∧ isDashWS d then collapseDashWS (d :: rest)
    else (if isDashWS c then '-' else c) :: collapseDashWS (d :: rest)

/-- Embeds the mutation `d[k] = v` performed on each key by
`dict.update`: an existing entry for `k` keeps its position and gets the
new value, a fresh key is appended at the end. -/
def updOne (d : List (String × String)) (k v : String) : List (String × String) :=
  if d.any (fun kv => kv.1 == k) then
    d.map (fun kv => if kv.1 == k then (k, v) else kv)
  else d ++ [(k, v)]

/-- Embeds Python `d.update(upds)` on the (insertion-ordered) dict `d`. -/
def dictUpdate (d upds : List (String × String)) : List (String × String) :=
  upds.foldl (fun acc kv => updOne acc kv.1 kv.2) d

/-- The fixed substitutions installed by
`replace.update({"[": "(", "]": ")", ":": "_", "()": ""})` (line 109),
in dict order. -/
def defaultReplace : List (String × String) :=
  [("[", "("), ("]", ")"), (":", "_"), ("()", "")]

/-- Sequential application of the replacement map, in dict order
(`for k, v in replace.items(): value = value.replace(k, v)`,
lines 115-116). -/
def applyRepl (rep : List (String × String)) (v : List Char) : List Char :=
  rep.foldl (fun acc kv => pyReplaceL acc kv.1.data kv.2.data) v

/-- Embeds `slugify` (lines 104-123) on a character list.
`unicodedata.normalize("NFKD", value).encode("ascii", "ignore")` keeps
ASCII characters unchanged and drops the rest; for the rare non-ASCII
characters whose NFKD decomposition contains ASCII (e.g. an accented
letter keeping its base letter) this embedding drops the whole character
— all theorems below evaluate it on ASCII text only, where it is exact. -/
def slugifyL (replace : List (String × String)) (keepSpace : Bool) (value : List Char) : List Char :=
  let rep := dictUpdate replace defaultReplace
  let v := value.filter (fun c => c.toNat < 128)
  let v := applyRepl rep v
  let v := stripL (v.filter allowedSlug)
  if keepSpace then collapseWS v else collapseDashWS v

/-- Embeds `slugify(value, replace, keepSpace=True)` (lines 104-123); the
spec calls it `normalize`. -/
def slugify (value : String) (replace : List (String × String) := []) (keepSpace : Bool := true) : String :=
  ⟨slugifyL replace keepSpace value.data⟩

/-- The `H:MM:SS` core of `str(datetime.timedelta(seconds=sec))`:
unpadded hours, zero-padded minutes and seconds. -/
def hmsCore (sec : Nat) : List Char :=
  natDigits (sec % 86400 / 3600) ++
    ':' :: (pyZfillL 2 (natDigits (sec % 3600 / 60)) ++
      ':' :: pyZfillL 2 (natDigits (sec % 60)))

/-- Embeds `secondsToHMS = lambda sec: str(DT.timedelta(seconds=sec))`
(line 66) for a non-negative integer number of seconds (the form the
chapter records carry; the spec calls it `secondsToDisplay`).  For a day
or more Python renders a `"D day(s), H:MM:SS"` prefix. -/
def secondsToHMS (sec : Nat) : String :=
  let d := sec / 86400
  if d = 0 then ⟨hmsCore sec⟩
  else ⟨natDigits d ++ (if d = 1 then " day, ".data else " days, ".data) ++ hmsCore sec⟩

/-- Python exceptions that the embedded fragments can raise. -/
inductive PyErr where
  | keyError (key : String)
  | indexError
  | typeError
  | valueError
  | calledProcessError
deriving Repr, DecidableEq

instance {ε α : Type} [DecidableEq ε] [DecidableEq α] : DecidableEq (Except ε α) := fun x y =>
  match x, y with
  | .ok a, .ok b =>
    if h : a = b then .isTrue (by rw [h]) else .isFalse (by intro hh; cases hh; exact h rfl)
  | .error a, .error b =>
    if h : a = b then .isTrue (by rw [h]) else .isFalse (by intro hh; cases hh; exact h rfl)
  | .ok _, .error _ => .isFalse (by intro h; cases h)
  | .error _, .ok _ => .isFalse (by intro h; cases h)

/-- Embeds `HMSToMS` (lines 131-137; the spec calls it
`displayToCueIndex`): split on `":"`, parse each field with `int` (a
`ValueError` on non-numeric fields), then run
`for h in range(timeArr[0] - 1): timeArr[1] += 60` — note the loop folds
`hours - 1` increments, and raises `IndexError` only if it runs at least
once with fewer than two fields — and join the fields after the first,
each `str(...).zfill(2)`. -/
def HMSToMS (time : String) : Except PyErr String :=
  match (splitOnChar ':' time.data).mapM pyIntL with
  | none => .error .valueError
  | some timeArr =>
    let h0 := timeArr.getD 0 0
    let iters := (h0 - 1).toNat
    if h0 ≠ 0 ∧ 0 < iters ∧ timeArr.length < 2 then .error .indexError
    else
      let arr := if h0 ≠ 0 then timeArr.set 1 (timeArr.getD 1 0 + 60 * iters) else timeArr
      .ok ⟨List.intercalate [':'] ((arr.drop 1).map (fun e => pyZfillL 2 (pyIntRepr e)))⟩

/-- Parsed JSON values, the result of `json.loads` in `getJson`
(lines 140-142).  Numbers are modelled as integers: every numeric field
the program reads is a whole number of seconds in the inputs the claims
quantify over. -/
inductive Json where
  | null
  | bool (b : Bool)
  | num (n : Int)
  | str (s : String)
  | arr (elems : List Json)
  | obj (fields : List (String × Json))

/-- Embeds the Python subscript `j[k]` with a string key: a dict lookup
(`KeyError` when the key is absent), a `TypeError` on any other value. -/
def jsSubscript (j : Json) (k : String) : Except PyErr Json :=
  match j with
  | .obj kvs =>
    match kvs.find? (fun kv => kv.1 == k) with
    | some kv => .ok kv.2
    | none => .error (.keyError k)
  | _ => .error .typeError

/-- Embeds `isinstance(v, Iterable)` (line 183) on JSON-sourced values:
strings, lists and dicts are iterable; `None`, booleans and numbers are
not. -/
def isIterable : Json → Bool
  | .str _ => true
  | .arr _ => true
  | .obj _ => true
  | _ => false

/-- Python truthiness of a JSON-sourced value, as used by
`js["creator"] or js["uploader"]` (line 172) and `... or artist`
(line 170). -/
def jsonTruthy : Json → Bool
  | .null => false
  | .bool b => b
  | .num n => n ≠ 0
  | .str s => s ≠ ""
  | .arr l => !l.isEmpty
  | .obj l => !l.isEmpty

/-- Embeds Python `str(v)` on a JSON-sourced value as performed inside
`slugify` (line 110).  The `repr`-style rendering of lists and dicts is
not modelled (no theorem below reaches it); the fields the program
stringifies are strings, `None`, booleans or numbers. -/
def pyStr : Json → String
  | .str s => s
  | .null => "None"
  | .bool true => "True"
  | .bool false => "False"
  | .num n => ⟨pyIntRepr n⟩
  | .arr _ => "<list>"
  | .obj _ => "<dict>"

/-- Embeds Python iteration over an `Iterable` JSON-sourced value, as in
`enumerate(js["chapters"])` (line 199): the elements of a list, the
one-character strings of a string, the keys of a dict. -/
def iterElems : Json → List Json
  | .arr xs => xs
  | .str s => s.data.map (fun c => .str ⟨[c]⟩)
  | .obj kvs => kvs.map (fun kv => .str kv.1)
  | _ => []

/-- Embeds `datetime.timedelta(seconds=v)`s argument conversion for a
JSON-sourced chapter timestamp: numbers pass through (the chapter records
carry non-negative whole seconds, so the non-negative integer value is
taken), booleans count as 0/1, anything else raises `TypeError`. -/
def asSeconds : Json → Except PyErr Nat
  | .num n => .ok n.toNat
  | .bool b => .ok (if b then 1 else 0)
  | _ => .error .typeError

/-- A chapter object the chapter loop (lines 199-204) can process without
raising: a dict with numeric non-negative `start_time` and `end_time` and
a string `title`. -/
def chapterWF (c : Json) : Bool :=
  match jsSubscript c "start_time", jsSubscript c "end_time", jsSubscript c "title" with
  | .ok (.num a), .ok (.num b), .ok (.str _) => 0 ≤ a ∧ 0 ≤ b
  | _, _, _ => false

/-- Embeds `baseName.rsplit("-", 1)[0]` (line 168): everything before the
last `-`, or the whole string when it has no `-`. -/
def rsplitHeadL (sep : Char) (s : List Char) : List Char :=
  if s.contains sep then ((s.reverse.dropWhile (fun c => c ≠ sep)).drop 1).reverse
  else s

/-- Embeds the identity resolution of the main loop (lines 167-173).
`fnTags = true` is the `-fn` branch: split the base name before the last
`-`, then around the first `" - "` (an `IndexError` when that separator
is absent), with the empty-album fallback `... or artist`.
`fnTags = false` reads `creator`/`uploader`/`title` from the metadata —
with plain dict subscripts, and with no fallback on the album. -/
def resolveIdentity (fnTags : Bool) (baseName : String) (js : Json) :
    Except PyErr (String × String) :=
  if fnTags then
    let tagName := stripL (rsplitHeadL '-' baseName.data)
    let parts := splitOnSub tagName " - ".data
    let artist := slugify ⟨stripL (parts.headD [])⟩
    if parts.length < 2 then .error .indexError
    else
      let album0 := slugify ⟨stripL (parts.getD 1 [])⟩
      .ok (artist, if album0 = "" then artist else album0)
  else do
    let creator ← jsSubscript js "creator"
    let cu ← if jsonTruthy creator then pure creator else jsSubscript js "uploader"
    let title ← jsSubscript js "title"
    .ok (slugify (pyStr cu), slugify (pyStr title))

/-- One chapter record as the spec's Chapter Plan Builder consumes it
(§3 ChapterRecord). -/
structure Chapter where
  start_time : Nat
  end_time : Nat
  title : String
deriving Repr, DecidableEq

/-- One planned segment: the values the chapter loop derives at
lines 200-204 for chapter index `i`. -/
structure SegmentPlan where
  track : Nat
  title : String
  startTime : String
  endTime : String
  fileName : String
deriving Repr, DecidableEq

/-- The values computed by the chapter loop (lines 200-204) for the
chapter at index `i`: `track = i + 1` and
`fileName = f"{track}. {title}.m4a"`. -/
def mkSegment (i : Nat) (ch : Chapter) : SegmentPlan :=
  let title := slugify ch.title
  let track := i + 1
  { track := track
    title := title
    startTime := secondsToHMS ch.start_time
    endTime := secondsToHMS ch.end_time
    fileName := pyStrNat track ++ ". " ++ title ++ ".m4a" }

/-- The chapter loop with `enumerate` starting at index `i`. -/
def buildPlanFrom (i : Nat) : List Chapter → List SegmentPlan
  | [] => []
  | ch :: rest => mkSegment i ch :: buildPlanFrom (i + 1) rest

/-- Embeds the planning part of `for i, chapter in enumerate(js["chapters"])`
(lines 199-204); the spec's `buildPlan`. -/
def buildPlan (chapters : List Chapter) : List SegmentPlan := buildPlanFrom 0 chapters

/-- The configuration flags reaching the main loop (`pargs`): `--gen-cue`,
`--fn-tags`, `--no-write`.  The inter-item pacing (`--wait` / the
interactive prompt) is a scheduling policy outside the core; the batch
model below always continues to the next item. -/
structure Config where
  genCue : Bool
  fnTags : Bool
  noWrite : Bool
deriving Repr, DecidableEq

/-- One discovered (metadata, audio) pair: the shared base name, whether
the sibling `.m4a` exists (line 161), and the parsed metadata. -/
structure Item where
  baseName : String
  m4aExists : Bool
  js : Json

/-- The observable per-item effects of the main loop: the log-file
lifecycle (lines 177, 245) and every line printed to it, the text
appended to the cue file, the directories created, and the external
`ffmpeg` invocations with the output files they produce.  Paths are
rendered relative to the source directory. -/
structure ItemEffects where
  logOpened : Bool := false
  logClosed : Bool := false
  logLines : List String := []
  cueWrites : List String := []
  dirsCreated : List String := []
  ffmpegCalls : Nat := 0
  outFiles : List String := []
deriving Repr, DecidableEq

/-- How one iteration of the main loop ends: the `continue` at line 163
(no matching `.m4a`), the `continue` at line 185 (no chapters), normal
completion through `log.close()` (line 245), or an uncaught exception
unwinding out of the loop. -/
inductive ItemStep where
  | skippedNoM4a
  | skippedNoChapters (eff : ItemEffects)
  | completed (eff : ItemEffects)
  | raised (e : PyErr) (eff : ItemEffects)
deriving Repr, DecidableEq

/-- Attach the current effects to an exception, so that a raise carries
the state observed at the moment of unwinding. -/
def liftE {α : Type} (eff : ItemEffects) : Except PyErr α → Except (PyErr × ItemEffects) α
  | .ok a => .ok a
  | .error e => .error (e, eff)

/-- One iteration of the chapter loop (lines 199-243) for chapter index
`i`.  `ffmpeg` is the external transcoding collaborator: `.ok` is its
combined output text on exit status zero, `.error` the nonzero status
that makes `subprocess.check_output` raise `CalledProcessError`. -/
def segStep (cfg : Config) (ffmpeg : Nat → Except Unit String)
    (artist album : String) (i : Nat) (ch : Json) (eff : ItemEffects) :
    Except (PyErr × ItemEffects) ItemEffects := do
  let stJ ← liftE eff (jsSubscript ch "start_time")
  let st ← liftE eff (asSeconds stJ)
  let etJ ← liftE eff (jsSubscript ch "end_time")
  let et ← liftE eff (asSeconds etJ)
  let titleJ ← liftE eff (jsSubscript ch "title")
  let startTime := secondsToHMS st
  let endTime := secondsToHMS et
  let title := slugify (pyStr titleJ)
  let track := i + 1
  let fileName := pyStrNat track ++ ". " ++ title ++ ".m4a"
  let eff := { eff with logLines := eff.logLines ++
    ["\n\n------------------------------",
     "\n\nProcessing " ++ title ++ " from " ++ startTime ++ " to " ++ endTime] }
  if cfg.noWrite then return eff
  if cfg.genCue then
    let idx ← liftE eff (HMSToMS startTime)
    return { eff with cueWrites := eff.cueWrites ++
      ["\n  TRACK " ++ ⟨pyZfillL 2 (natDigits track)⟩ ++ " AUDIO",
       "\n    TITLE \"" ++ title ++ "\"",
       "\n    INDEX 01 " ++ idx ++ ":00 "] }
  else
    let eff := { eff with
      logLines := eff.logLines ++ ["\nOutput file name: " ++ fileName],
      ffmpegCalls := eff.ffmpegCalls + 1 }
    match ffmpeg i with
    | .error _ => .error (.calledProcessError, eff)
    | .ok out =>
      return { eff with
        outFiles := eff.outFiles ++ [artist ++ "/" ++ album ++ "/" ++ fileName],
        logLines := eff.logLines ++ [out] }

/-- The chapter loop `for i, chapter in enumerate(...)` from index `i`. -/
def segLoop (cfg : Config) (ffmpeg : Nat → Except Unit String)
    (artist album : String) :
    Nat → List Json → ItemEffects → Except (PyErr × ItemEffects) ItemEffects
  | _, [], eff => .ok eff
  | i, ch :: rest, eff =>
    match segStep cfg ffmpeg artist album i ch eff with
    | .error e => .error e
    | .ok eff' => segLoop cfg ffmpeg artist album (i + 1) rest eff'

/-- One iteration of the main loop (lines 155-245) on one item.
Exceptions are not caught anywhere in the source, so any raise is
reported as `ItemStep.raised` with the effects accumulated so far —
notably with the log file still open. -/
def processItem (cfg : Config) (ffmpeg : Nat → Except Unit String) (it : Item) : ItemStep :=
  if !it.m4aExists then .skippedNoM4a
  else
    match resolveIdentity cfg.fnTags it.baseName it.js with
    | .error e => .raised e {}
    | .ok (artist, album) =>
      let eff : ItemEffects :=
        { logOpened := true
          dirsCreated := ["logs"]
          logLines := ["\n\n==============================", "\n\nProcessing " ++ album] }
      match jsSubscript it.js "chapters" with
      | .error e => .raised e eff
      | .ok chaptersJ =>
        if !isIterable chaptersJ then
          .skippedNoChapters { eff with logLines := eff.logLines ++
            ["\n\n\nSkipping " ++ album ++ ", Chapters info not found."] }
        else
          let m4aName := it.baseName ++ ".m4a"
          let eff :=
            if cfg.noWrite then eff
            else if cfg.genCue then
              { eff with cueWrites :=
                ["\nPERFORMER \"" ++ artist ++ "\"",
                 "\nTITLE \"" ++ album ++ "\"",
                 "\nFILE \"" ++ m4aName ++ "\" AAC"] }
            else
              { eff with
                dirsCreated := eff.dirsCreated ++ [artist, artist ++ "/" ++ album],
                logLines := eff.logLines ++
                  ["\nOutput directory name: " ++ artist ++ "/" ++ album] }
          match segLoop cfg ffmpeg artist album 0 (iterElems chaptersJ) eff with
          | .error pe => .raised pe.1 pe.2
          | .ok eff' => .completed { eff' with logClosed := true }

/-- The batch over the sorted item list, threading the item index to the
external-tool oracle.  An uncaught exception unwinds out of the loop:
no later item is processed. -/
def runBatchFrom (cfg : Config) (oracle : Nat → Nat → Except Unit String) :
    Nat → List Item → List ItemStep
  | _, [] => []
  | j, it :: rest =>
    match processItem cfg (oracle j) it with
    | .raised e eff => [.raised e eff]
    | step => step :: runBatchFrom cfg oracle (j + 1) rest

/-- The batch of lines 155-251 (with the inter-item pacing modelled as
always-continue). -/
def runBatch (cfg : Config) (oracle : Nat → Nat → Except Unit String)
    (items : List Item) : List ItemStep :=
  runBatchFrom cfg oracle 0 items

/-- Dry-run, metadata-tag configuration used by the concrete test items. -/
def cfgNW : Config := { genCue := false, fnTags := false, noWrite := true }

/-- An external-tool oracle that always succeeds with empty output. -/
def oracleOkDef : Nat → Nat → Except Unit String := fun _ _ => .ok ""

/-- Item whose metadata carries `"chapters": null` (the usual
"no chapters" shape): the guard at line 183 skips it. -/
def itemNoChap : Item :=
  { baseName := "b", m4aExists := true,
    js := .obj [("creator", .str "A"), ("title", .str "T"), ("chapters", .null)] }

/-- Item whose metadata has no `chapters` key at all: `js["chapters"]`
raises `KeyError`. -/
def itemNoKey : Item :=
  { baseName := "b", m4aExists := true,
    js := .obj [("creator", .str "A"), ("title", .str "T")] }

/-- The effects of the skip path on `itemNoChap`: log opened, three lines
printed, log never closed. -/
def effSkipT : ItemEffects :=
  { logOpened := true, logClosed := false,
    logLines := ["\n\n==============================", "\n\nProcessing T",
      "\n\n\nSkipping T, Chapters info not found."],
    cueWrites := [], dirsCreated := ["logs"], ffmpegCalls := 0, outFiles := [] }

/-- The effects accumulated on `itemNoKey` up to the `KeyError` raised by
`js["chapters"]`: log opened and never closed. -/
def effOpenT : ItemEffects :=
  { logOpened := true, logClosed := false,
    logLines := ["\n\n==============================", "\n\nProcessing T"],
    cueWrites := [], dirsCreated := ["logs"], ffmpegCalls := 0, outFiles := [] }

/-- A well-formed chapter record as a JSON object. -/
def chapJ (a b : Int) (t : String) : Json :=
  .obj [("start_time", .num a), ("end_time", .num b), ("title", .str t)]

/-- Item with two well-formed chapters. -/
def itemTwoCh : Item :=
  { baseName := "b", m4aExists := true,
    js := .obj [("creator", .str "A"), ("title", .str "T"),
      ("chapters", .arr [chapJ 0 10 "One", chapJ 10 20 "Two"])] }

/-- An external-tool oracle that succeeds on segment 0 of every item and
exits nonzero on every later segment. -/
def oracleFail1 : Nat → Nat → Except Unit String :=
  fun _ i => if i = 0 then .ok "out" else .error ()

/-- Metadata whose `title` is the empty string (its slug is empty). -/
def jsEmptyTitle : Json := .obj [("creator", .str "X"), ("title", .str "")]

theorem digitRange_ofNat : ∀ k, k < 10 → (Char.ofNat (48 + k)).toNat = 48 + k := by decide

theorem not_space_of_digitRange (c : Char) (h1 : 48 ≤ c.toNat) (h2 : c.toNat ≤ 57) :
    isSpacePy c = false := by
  simp only [isSpacePy, decide_eq_false_iff_not]
  rintro (rfl | rfl | rfl | rfl | rfl | rfl | rfl | rfl | rfl | rfl) <;>
    revert h1 h2 <;> decide

theorem isDigitChar_iff (c : Char) : isDigitChar c = true ↔ 48 ≤ c.toNat ∧ c.toNat ≤ 57 := by
  simp [isDigitChar]

theorem allowed_lt128 (c : Char) (h : allowedSlug c = true) : c.toNat < 128 := by
  simp only [allowedSlug, isWordAscii, isSpacePy, decide_eq_true_eq] at h
  rcases h with ((h | h | h | rfl) | h | rfl | rfl | rfl | rfl)
  · omega
  · omega
  · omega
  · decide
  · rcases h with rfl | rfl | rfl | rfl | rfl | rfl | rfl | rfl | rfl | rfl <;> decide
  all_goals decide

theorem natDigitsAux_ne_nil : ∀ fuel n, n < fuel → natDigitsAux fuel n ≠ [] := by
  intro fuel
  induction fuel with
  | zero => intro n h; omega
  | succ f ih =>
    intro n _
    simp only [natDigitsAux]
    split
    · simp
    · simp

theorem natDigitsAux_digits : ∀ fuel n, n < fuel →
    ∀ c ∈ natDigitsAux fuel n, 48 ≤ c.toNat ∧ c.toNat ≤ 57 := by
  intro fuel
  induction fuel with
  | zero => intro n h; omega
  | succ f ih =>
    intro n hn c hc
    simp only [natDigitsAux] at hc
    split at hc
    · next h10 =>
      simp only [List.mem_singleton] at hc
      subst hc
      rw [digitRange_ofNat n h10]
      omega
    · next h10 =>
      rw [List.mem_append] at hc
      rcases hc with hc | hc
      · exact ih (n / 10) (by omega) c hc
      · simp only [List.mem_singleton] at hc
        subst hc
        rw [digitRange_ofNat (n % 10) (Nat.mod_lt _ (by omega))]
        omega

theorem natDigitsAux_foldl : ∀ fuel n a, n < fuel →
    (natDigitsAux fuel n).foldl (fun a c => a * 10 + (c.toNat - 48)) a =
      a * 10 ^ (natDigitsAux fuel n).length + n := by
  intro fuel
  induction fuel with
  | zero => intro n a h; omega
  | succ f ih =>
    intro n a hn
    simp only [natDigitsAux]
    split
    · next h10 =>
      simp [List.foldl, digitRange_ofNat n h10]
    · next h10 =>
      rw [List.foldl_append, ih (n / 10) a (by omega), List.length_append]
      simp only [List.foldl, List.length_singleton]
      rw [digitRange_ofNat (n % 10) (Nat.mod_lt _ (by omega))]
      rw [pow_succ]
      have : 10 * (n / 10) + n % 10 = n := Nat.div_add_mod n 10
      ring_nf
      omega

theorem natDigits_ne_nil (n : Nat) : natDigits n ≠ [] :=
  natDigitsAux_ne_nil (n + 1) n (Nat.lt_succ_self n)

theorem natDigits_digits (n : Nat) : ∀ c ∈ natDigits n, 48 ≤ c.toNat ∧ c.toNat ≤ 57 :=
  natDigitsAux_digits (n + 1) n (Nat.lt_succ_self n)

theorem parseDigits_natDigits (n : Nat) : parseDigits (natDigits n) = n := by
  have := natDigitsAux_foldl (n + 1) n 0 (Nat.lt_succ_self n)
  simpa [parseDigits, natDigits] using this

theorem parseDigits_zeros (k : Nat) (l : List Char) :
    parseDigits (List.replicate k '0' ++ l) = parseDigits l := by
  simp only [parseDigits, List.foldl_append]
  congr 1
  induction k with
  | zero => simp
  | succ m ih => simpa [List.replicate_succ] using ih

theorem dropWhile_eq_self_of_all (p : Char → Bool) (l : List Char)
    (h : ∀ c ∈ l, p c = false) : l.dropWhile p = l := by
  cases l with
  | nil => rfl
  | cons c rest => simp [List.dropWhile, h c (by simp)]

theorem stripL_eq_self_of_no_space (l : List Char)
    (h : ∀ c ∈ l, isSpacePy c = false) : stripL l = l := by
  unfold stripL
  rw [dropWhile_eq_self_of_all _ _ h, dropWhile_eq_self_of_all, List.reverse_reverse]
  intro c hc
  exact h c (by simpa using hc)

theorem digit_ne_dash (c : Char) (h1 : 48 ≤ c.toNat) (h2 : c.toNat ≤ 57) : c ≠ '-' := by
  intro h; rw [h] at h1; exact absurd h1 (by decide)

theorem digit_ne_plus (c : Char) (h1 : 48 ≤ c.toNat) (h2 : c.toNat ≤ 57) : c ≠ '+' := by
  intro h; rw [h] at h1; exact absurd h1 (by decide)

theorem digit_ne_colon (c : Char) (h1 : 48 ≤ c.toNat) (h2 : c.toNat ≤ 57) : c ≠ ':' := by
  intro h; rw [h] at h2; exact absurd h2 (by decide)

theorem pyIntL_of_digits (l : List Char) (hne : l ≠ [])
    (hd : ∀ c ∈ l, 48 ≤ c.toNat ∧ c.toNat ≤ 57) :
    pyIntL l = some (parseDigits l : Int) := by
  obtain ⟨c, rest, rfl⟩ := List.exists_cons_of_ne_nil hne
  have hstrip : stripL (c :: rest) = c :: rest :=
    stripL_eq_self_of_no_space _ (fun x hx => not_space_of_digitRange x (hd x hx).1 (hd x hx).2)
  have hc := hd c (by simp)
  have hnd : c ≠ '-' := digit_ne_dash c hc.1 hc.2
  have hnp : c ≠ '+' := digit_ne_plus c hc.1 hc.2
  have hall : (c :: rest).all isDigitChar = true := by
    rw [List.all_eq_true]
    intro x hx
    exact (isDigitChar_iff x).mpr (hd x hx)
  simp [pyIntL, hstrip, hnd, hnp, hall]

theorem pyIntL_natDigits (n : Nat) : pyIntL (natDigits n) = some (n : Int) := by
  rw [pyIntL_of_digits (natDigits n) (natDigits_ne_nil n) (natDigits_digits n),
    parseDigits_natDigits]

theorem zfill_digits (w : Nat) (l : List Char)
    (hd : ∀ c ∈ l, 48 ≤ c.toNat ∧ c.toNat ≤ 57) :
    ∀ c ∈ pyZfillL w l, 48 ≤ c.toNat ∧ c.toNat ≤ 57 := by
  intro c hc
  unfold pyZfillL at hc
  split at hc
  · exact hd c hc
  · split at hc
    · exfalso
      exact digit_ne_dash '-' (hd '-' (by simp)).1 (hd '-' (by simp)).2 rfl
    · exfalso
      exact digit_ne_plus '+' (hd '+' (by simp)).1 (hd '+' (by simp)).2 rfl
    · rw [List.mem_append] at hc
      rcases hc with hc | hc
      · rw [List.eq_of_mem_replicate hc]; decide
      · exact hd c hc

theorem parseDigits_zfill (w : Nat) (l : List Char)
    (hd : ∀ c ∈ l, 48 ≤ c.toNat ∧ c.toNat ≤ 57) :
    parseDigits (pyZfillL w l) = parseDigits l := by
  unfold pyZfillL
  split
  · rfl
  · split
    · exfalso
      exact digit_ne_dash '-' (hd '-' (by simp)).1 (hd '-' (by simp)).2 rfl
    · exfalso
      exact digit_ne_plus '+' (hd '+' (by simp)).1 (hd '+' (by simp)).2 rfl
    · exact parseDigits_zeros _ _

theorem pyZfill_ne_nil (w : Nat) (l : List Char) (hne : l ≠ []) : pyZfillL w l ≠ [] := by
  unfold pyZfillL
  split
  · exact hne
  · split
    · simp
    · simp
    · next h =>
      intro habs
      rw [List.append_eq_nil] at habs
      exact hne habs.2

theorem splitOnCharAux_no_sep (sep : Char) :
    ∀ l acc, sep ∉ l → splitOnCharAux sep l acc = [acc.reverse ++ l] := by
  intro l
  induction l with
  | nil => intro acc _; simp [splitOnCharAux]
  | cons c rest ih =>
    intro acc h
    have hcs : ¬(c = sep) := fun habs => h (by simp [habs])
    simp only [splitOnCharAux, if_neg hcs]
    rw [ih (c :: acc) (fun habs => h (by simp [habs]))]
    simp

theorem splitOnCharAux_sep_append (sep : Char) :
    ∀ a acc rest, sep ∉ a →
      splitOnCharAux sep (a ++ sep :: rest) acc =
        (acc.reverse ++ a) :: splitOnCharAux sep rest [] := by
  intro a
  induction a with
  | nil => intro acc rest _; simp [splitOnCharAux]
  | cons c a' ih =>
    intro acc rest h
    have hcs : ¬(c = sep) := fun habs => h (by simp [habs])
    simp only [List.cons_append, splitOnCharAux, if_neg hcs, List.append_eq]
    rw [ih (c :: acc) rest (fun habs => h (by simp [habs]))]
    simp

theorem splitOnChar_three (x y z : List Char) (sep : Char)
    (hx : sep ∉ x) (hy : sep ∉ y) (hz : sep ∉ z) :
    splitOnChar sep (x ++ sep :: (y ++ sep :: z)) = [x, y, z] := by
  unfold splitOnChar
  rw [splitOnCharAux_sep_append sep x [] _ hx,
    splitOnCharAux_sep_append sep y [] _ hy,
    splitOnCharAux_no_sep sep z [] hz]
  simp

theorem splitOnChar_two (y z : List Char) (sep : Char)
    (hy : sep ∉ y) (hz : sep ∉ z) :
    splitOnChar sep (y ++ sep :: z) = [y, z] := by
  unfold splitOnChar
  rw [splitOnCharAux_sep_append sep y [] _ hy, splitOnCharAux_no_sep sep z [] hz]
  simp

theorem intercalate_pair (s a b : List Char) :
    List.intercalate s [a, b] = a ++ s ++ b := by
  simp [List.intercalate, List.intersperse]

theorem colon_not_mem_of_digits (l : List Char)
    (hd : ∀ c ∈ l, 48 ≤ c.toNat ∧ c.toNat ≤ 57) : ':' ∉ l := fun hm =>
  digit_ne_colon ':' (hd _ hm).1 (hd _ hm).2 rfl

theorem pyIntL_zfill_natDigits (w n : Nat) :
    pyIntL (pyZfillL w (natDigits n)) = some (n : Int) := by
  rw [pyIntL_of_digits _ (pyZfill_ne_nil w _ (natDigits_ne_nil n))
      (zfill_digits w _ (natDigits_digits n)),
    parseDigits_zfill w _ (natDigits_digits n), parseDigits_natDigits]

theorem pyIntRepr_natCast (n : Nat) : pyIntRepr (n : Int) = natDigits n := by
  unfold pyIntRepr
  rw [if_neg (by omega)]
  congr 1

theorem HMSToMS_hms (h m s : Nat) :
    HMSToMS ⟨natDigits h ++ ':' :: (pyZfillL 2 (natDigits m) ++ ':' :: pyZfillL 2 (natDigits s))⟩ =
      .ok ⟨pyZfillL 2 (natDigits (if h = 0 then m else m + 60 * (h - 1))) ++
        ':' :: pyZfillL 2 (natDigits s)⟩ := by
  have hsplit : splitOnChar ':'
      (natDigits h ++ ':' :: (pyZfillL 2 (natDigits m) ++ ':' :: pyZfillL 2 (natDigits s))) =
      [natDigits h, pyZfillL 2 (natDigits m), pyZfillL 2 (natDigits s)] :=
    splitOnChar_three _ _ _ _
      (colon_not_mem_of_digits _ (natDigits_digits h))
      (colon_not_mem_of_digits _ (zfill_digits 2 _ (natDigits_digits m)))
      (colon_not_mem_of_digits _ (zfill_digits 2 _ (natDigits_digits s)))
  unfold HMSToMS
  rw [show (String.mk (natDigits h ++ ':' ::
      (pyZfillL 2 (natDigits m) ++ ':' :: pyZfillL 2 (natDigits s)))).data =
      natDigits h ++ ':' :: (pyZfillL 2 (natDigits m) ++ ':' :: pyZfillL 2 (natDigits s)) from rfl,
    hsplit]
  rw [List.mapM_cons, List.mapM_cons, List.mapM_cons, List.mapM_nil,
    pyIntL_natDigits, pyIntL_zfill_natDigits, pyIntL_zfill_natDigits]
  simp only [Option.bind_some, Option.pure_def, Option.bind_eq_bind, Option.some_bind]
  by_cases h0 : h = 0
  · subst h0
    simp [intercalate_pair, pyIntRepr_natCast]
  · have hcast : (h : Int) ≠ 0 := by exact_mod_cast h0
    have hiter : ((h : Int) - 1).toNat = h - 1 := by omega
    simp only [hcast, hiter, ne_eq, not_false_eq_true, true_and, List.getD_cons_zero,
      List.getD_cons_succ, List.length_cons, List.length_nil, if_true, intercalate_pair]
    simp only [List.set_cons_succ, List.set_cons_zero, List.drop_succ_cons, List.drop_zero,
      List.map_cons, List.map_nil]
    rw [show (m : Int) + 60 * ((h - 1 : Nat) : Int) = ((m + 60 * (h - 1) : Nat) : Int) by omega,
      pyIntRepr_natCast, pyIntRepr_natCast, if_neg h0, intercalate_pair]
    simp

theorem secondsToHMS_lt_day (d : Nat) (hd : d < 86400) :
    secondsToHMS d = ⟨natDigits (d / 3600) ++ ':' ::
      (pyZfillL 2 (natDigits (d % 3600 / 60)) ++ ':' :: pyZfillL 2 (natDigits (d % 60)))⟩ := by
  unfold secondsToHMS hmsCore
  rw [if_pos (Nat.div_eq_of_lt hd), Nat.mod_eq_of_lt hd]

theorem HMSToMS_secondsToHMS (d : Nat) (hd : d < 86400) :
    HMSToMS (secondsToHMS d) =
      .ok ⟨pyZfillL 2 (natDigits
          (if d / 3600 = 0 then d % 3600 / 60 else d % 3600 / 60 + 60 * (d / 3600 - 1))) ++
        ':' :: pyZfillL 2 (natDigits (d % 60))⟩ := by
  rw [secondsToHMS_lt_day d hd]
  exact HMSToMS_hms (d / 3600) (d % 3600 / 60) (d % 60)

theorem pyReplaceAux_no_hit (pat rep : List Char) :
    ∀ fuel s, ¬ pat <:+: s → pyReplaceAux pat rep fuel s = s := by
  intro fuel
  induction fuel with
  | zero => intro s _; rfl
  | succ f ih =>
    intro s h
    match s with
    | [] => rfl
    | c :: rest =>
      have hpre : ¬(pat ≠ [] ∧ pat.isPrefixOf (c :: rest) = true) := by
        rintro ⟨-, hp⟩
        have hp2 : pat <+: c :: rest := List.isPrefixOf_iff_prefix.mp hp
        exact h hp2.isInfix
      simp only [pyReplaceAux, if_neg hpre]
      rw [ih rest (fun habs => h (habs.trans (List.suffix_cons c rest).isInfix))]

theorem pyReplaceL_no_hit (s pat rep : List Char) (h : ¬ pat <:+: s) :
    pyReplaceL s pat rep = s :=
  pyReplaceAux_no_hit pat rep (s.length + 1) s h

theorem pyReplaceL_not_mem (s : List Char) (a : Char) (rep : List Char) (h : a ∉ s) :
    pyReplaceL s [a] rep = s :=
  pyReplaceL_no_hit s [a] rep (fun habs => h (habs.mem (by simp)))

theorem head?_dropWhile_not (p : Char → Bool) (l : List Char) :
    ∀ c, (l.dropWhile p).head? = some c → p c = false := by
  induction l with
  | nil => intro c h; simp at h
  | cons c' rest ih =>
    intro c h
    by_cases hp : p c' = true
    · rw [List.dropWhile_cons_of_pos hp] at h
      exact ih c h
    · rw [List.dropWhile_cons_of_neg hp] at h
      simp only [List.head?_cons, Option.some_inj] at h
      subst h
      simpa using hp

theorem dropWhile_eq_self_of_head (p : Char → Bool) (l : List Char)
    (h : ∀ c, l.head? = some c → p c = false) : l.dropWhile p = l := by
  cases l with
  | nil => rfl
  | cons c rest => exact List.dropWhile_cons_of_neg (by simp [h c rfl])

theorem getLast?_of_suffix (l₁ l₂ : List Char) (h : l₁ <:+ l₂) (hne : l₁ ≠ []) :
    l₂.getLast? = l₁.getLast? := by
  obtain ⟨t, rfl⟩ := h
  exact List.getLast?_append_of_ne_nil t hne

theorem stripL_mem (s : List Char) : ∀ c ∈ stripL s, c ∈ s := by
  intro c hc
  unfold stripL at hc
  rw [List.mem_reverse] at hc
  have h1 := (List.dropWhile_suffix isSpacePy).sublist.mem hc
  rw [List.mem_reverse] at h1
  exact (List.dropWhile_suffix isSpacePy).sublist.mem h1

theorem stripL_head_not_space (s : List Char) :
    ∀ c, (stripL s).head? = some c → isSpacePy c = false := by
  intro c hc
  unfold stripL at hc
  rw [List.head?_reverse] at hc
  have hne : (s.dropWhile isSpacePy).reverse.dropWhile isSpacePy ≠ [] := by
    intro habs
    rw [habs] at hc
    simp at hc
  rw [← getLast?_of_suffix _ _ (List.dropWhile_suffix isSpacePy) hne,
    List.getLast?_reverse] at hc
  exact head?_dropWhile_not isSpacePy s c hc

theorem stripL_getLast_not_space (s : List Char) :
    ∀ c, (stripL s).getLast? = some c → isSpacePy c = false := by
  intro c hc
  unfold stripL at hc
  rw [List.getLast?_reverse] at hc
  exact head?_dropWhile_not isSpacePy _ c hc

theorem stripL_eq_self (s : List Char)
    (h1 : ∀ c, s.head? = some c → isSpacePy c = false)
    (h2 : ∀ c, s.getLast? = some c → isSpacePy c = false) : stripL s = s := by
  unfold stripL
  rw [dropWhile_eq_self_of_head isSpacePy s h1, dropWhile_eq_self_of_head,
    List.reverse_reverse]
  intro c hc
  rw [List.head?_reverse] at hc
  exact h2 c hc

theorem mem_collapseWS (l : List Char) : ∀ c ∈ collapseWS l, c ∈ l ∨ c = ' ' := by
  induction l with
  | nil => intro c hc; simp [collapseWS] at hc
  | cons c0 rest ih =>
    intro c hc
    cases rest with
    | nil =>
      unfold collapseWS at hc
      split at hc
      · simp only [List.mem_singleton] at hc; right; exact hc
      · simp only [List.mem_singleton] at hc; left; simp [hc]
    | cons d rest' =>
      unfold collapseWS at hc
      split at hc
      · rcases ih c hc with h | h
        · left; exact List.mem_cons_of_mem c0 h
        · right; exact h
      · rcases List.mem_cons.mp hc with h | h
        · subst h
          split
          · right; rfl
          · left; simp
        · rcases ih c h with h2 | h2
          · left; exact List.mem_cons_of_mem c0 h2
          · right; exact h2

theorem space_collapseWS (l : List Char) :
    ∀ c ∈ collapseWS l, isSpacePy c = true → c = ' ' := by
  induction l with
  | nil => intro c hc; simp [collapseWS] at hc
  | cons c0 rest ih =>
    intro c hc hsp
    cases rest with
    | nil =>
      unfold collapseWS at hc
      split at hc
      · simpa using hc
      · next hn =>
        simp only [List.mem_singleton] at hc
        subst hc
        exact absurd hsp (by simpa using hn)
    | cons d rest' =>
      unfold collapseWS at hc
      split at hc
      · exact ih c hc hsp
      · rcases List.mem_cons.mp hc with h | h
        · by_cases hc0 : isSpacePy c0 = true
          · rw [h, if_pos hc0]
          · rw [h, if_neg hc0] at hsp
            exact absurd hsp hc0
        · exact ih c h hsp

theorem collapseWS_ne_nil (l : List Char) (h : l ≠ []) : collapseWS l ≠ [] := by
  induction l with
  | nil => exact absurd rfl h
  | cons c0 rest ih =>
    cases rest with
    | nil =>
      unfold collapseWS
      split <;> simp
    | cons d rest' =>
      unfold collapseWS
      split
      · exact ih (by simp)
      · simp

theorem head?_collapseWS_nonspace (d : Char) (rest : List Char) (h : isSpacePy d = false) :
    (collapseWS (d :: rest)).head? = some d := by
  cases rest with
  | nil =>
    unfold collapseWS
    rw [if_neg (by simp [h])]
    rfl
  | cons r1 rest' =>
    unfold collapseWS
    rw [if_neg (by simp [h])]
    simp [h]

theorem chain'_collapseWS (l : List Char) :
    List.Chain' (fun a b => ¬(isSpacePy a = true ∧ isSpacePy b = true)) (collapseWS l) := by
  induction l with
  | nil => simp [collapseWS]
  | cons c0 rest ih =>
    cases rest with
    | nil =>
      unfold collapseWS
      split <;> exact List.chain'_singleton _
    | cons d rest' =>
      unfold collapseWS
      split
      · exact ih
      · next hcd =>
        refine List.chain'_cons'.mpr ⟨?_, ih⟩
        intro b hb
        by_cases hd : isSpacePy d = true
        · have hc0 : isSpacePy c0 = false := by
            rcases not_and_or.mp hcd with h | h
            · simpa using h
            · exact absurd hd h
          rintro ⟨h1, -⟩
          rw [if_neg (by simp [hc0])] at h1
          rw [hc0] at h1
          simp at h1
        · rw [head?_collapseWS_nonspace d rest' (by simpa using hd)] at hb
          simp only [Option.mem_def, Option.some_inj] at hb
          subst hb
          rintro ⟨-, habs⟩
          exact hd habs

theorem getLast?_collapseWS (l : List Char) :
    ∀ z, l.getLast? = some z → isSpacePy z = false →
      (collapseWS l).getLast? = some z := by
  induction l with
  | nil => intro z hz; simp at hz
  | cons c0 rest ih =>
    intro z hz hsp
    cases rest with
    | nil =>
      simp only [List.getLast?_singleton, Option.some_inj] at hz
      subst hz
      unfold collapseWS
      rw [if_neg (by simp [hsp])]
      rfl
    | cons d rest' =>
      rw [List.getLast?_cons_cons] at hz
      unfold collapseWS
      split
      · exact ih z hz hsp
      · have hne := collapseWS_ne_nil (d :: rest') (by simp)
        rw [show ((if isSpacePy c0 then ' ' else c0) :: collapseWS (d :: rest')) =
            [if isSpacePy c0 then ' ' else c0] ++ collapseWS (d :: rest') from rfl,
          List.getLast?_append_of_ne_nil _ hne]
        exact ih z hz hsp

theorem collapseWS_eq_self (l : List Char)
    (hsp : ∀ c ∈ l, isSpacePy c = true → c = ' ')
    (hch : List.Chain' (fun a b => ¬(isSpacePy a = true ∧ isSpacePy b = true)) l) :
    collapseWS l = l := by
  induction l with
  | nil => rfl
  | cons c0 rest ih =>
    cases rest with
    | nil =>
      unfold collapseWS
      split
      · next h => rw [hsp c0 (by simp) h]
      · rfl
    | cons d rest' =>
      have hR := (List.chain'_cons'.mp hch).1 d (by simp)
      have hch' := (List.chain'_cons'.mp hch).2
      have hsp' : ∀ c ∈ d :: rest', isSpacePy c = true → c = ' ' :=
        fun c hc => hsp c (List.mem_cons_of_mem c0 hc)
      unfold collapseWS
      rw [if_neg (by simpa using hR)]
      rw [ih hsp' hch']
      by_cases hc0 : isSpacePy c0 = true
      · rw [if_pos hc0, hsp c0 (by simp) hc0]
      · rw [if_neg hc0]

theorem slugifyL_default (x : List Char) :
    slugifyL [] true x = collapseWS (stripL ((applyRepl defaultReplace
      (x.filter (fun c => c.toNat < 128))).filter allowedSlug)) := rfl

theorem slug_chars (x : List Char) : ∀ c ∈ slugifyL [] true x, allowedSlug c = true := by
  rw [slugifyL_default]
  intro c hc
  rcases mem_collapseWS _ c hc with h | rfl
  · exact (List.mem_filter.mp (stripL_mem _ c h)).2
  · decide

theorem slug_space (x : List Char) :
    ∀ c ∈ slugifyL [] true x, isSpacePy c = true → c = ' ' := by
  rw [slugifyL_default]
  exact space_collapseWS _

theorem slug_chain (x : List Char) :
    List.Chain' (fun a b => ¬(isSpacePy a = true ∧ isSpacePy b = true)) (slugifyL [] true x) := by
  rw [slugifyL_default]
  exact chain'_collapseWS _

theorem slug_head (x : List Char) :
    ∀ c, (slugifyL [] true x).head? = some c → isSpacePy c = false := by
  rw [slugifyL_default]
  intro c hc
  cases hu : stripL ((applyRepl defaultReplace
      (x.filter (fun c => c.toNat < 128))).filter allowedSlug) with
  | nil => rw [hu] at hc; simp [collapseWS] at hc
  | cons d u' =>
    have hd : isSpacePy d = false := stripL_head_not_space _ d (by rw [hu]; rfl)
    rw [hu, head?_collapseWS_nonspace d u' hd, Option.some_inj] at hc
    subst hc
    exact hd

theorem slug_last (x : List Char) :
    ∀ c, (slugifyL [] true x).getLast? = some c → isSpacePy c = false := by
  rw [slugifyL_default]
  intro c hc
  cases hu : stripL ((applyRepl defaultReplace
      (x.filter (fun c => c.toNat < 128))).filter allowedSlug) with
  | nil => rw [hu] at hc; simp [collapseWS] at hc
  | cons d u' =>
    obtain ⟨z, hz⟩ : ∃ z, (d :: u').getLast? = some z := ⟨_, List.getLast?_cons⟩
    have hzs : isSpacePy z = false := stripL_getLast_not_space _ z (by rw [hu]; exact hz)
    rw [hu, getLast?_collapseWS _ z hz hzs, Option.some_inj] at hc
    subst hc
    exact hzs

theorem not_mem_slug_of_not_allowed (x : List Char) (a : Char) (ha : allowedSlug a = false) :
    a ∉ slugifyL [] true x := fun hm => by
  rw [slug_chars x a hm] at ha
  simp at ha

theorem slugifyL_idem (x : List Char) (h : ¬ ['(', ')'] <:+: slugifyL [] true x) :
    slugifyL [] true (slugifyL [] true x) = slugifyL [] true x := by
  have hAll := slug_chars x
  have hRepl : applyRepl defaultReplace (slugifyL [] true x) = slugifyL [] true x := by
    show pyReplaceL (pyReplaceL (pyReplaceL (pyReplaceL
        (slugifyL [] true x) ['['] ['(']) [']'] [')']) [':'] ['_']) ['(', ')'] [] =
      slugifyL [] true x
    rw [pyReplaceL_not_mem _ _ _ (not_mem_slug_of_not_allowed x '[' (by decide)),
      pyReplaceL_not_mem _ _ _ (not_mem_slug_of_not_allowed x ']' (by decide)),
      pyReplaceL_not_mem _ _ _ (not_mem_slug_of_not_allowed x ':' (by decide)),
      pyReplaceL_no_hit _ _ _ h]
  have hFil1 : (slugifyL [] true x).filter (fun c => c.toNat < 128) = slugifyL [] true x :=
    List.filter_eq_self.mpr (fun c hc => by simpa using allowed_lt128 c (hAll c hc))
  have hFil2 : (slugifyL [] true x).filter allowedSlug = slugifyL [] true x :=
    List.filter_eq_self.mpr hAll
  rw [slugifyL_default (slugifyL [] true x), hFil1, hRepl, hFil2,
    stripL_eq_self _ (slug_head x) (slug_last x)]
  exact collapseWS_eq_self _ (slug_space x) (slug_chain x)

theorem buildPlanFrom_get? :
    ∀ (chs : List Chapter) (i j : Nat),
      (buildPlanFrom i chs).get? j = (chs.get? j).map (mkSegment (i + j)) := by
  intro chs
  induction chs with
  | nil => intro i j; simp [buildPlanFrom]
  | cons ch rest ih =>
    intro i j
    cases j with
    | zero => simp [buildPlanFrom]
    | succ j' =>
      simp only [buildPlanFrom, List.get?_cons_succ]
      rw [ih (i + 1) j', show i + 1 + j' = i + (j' + 1) from by omega]

theorem buildPlanFrom_track :
    ∀ (chs : List Chapter) (i : Nat),
      (buildPlanFrom i chs).map SegmentPlan.track = (List.range chs.length).map (fun k => i + k + 1) := by
  intro chs
  induction chs with
  | nil => intro i; simp [buildPlanFrom]
  | cons ch rest ih =>
    intro i
    simp only [buildPlanFrom, List.map_cons, List.length_cons, List.range_succ_eq_map,
      List.map_map]
    rw [ih (i + 1)]
    congr 1
    congr 1
    funext k
    simp only [Function.comp_apply, Nat.succ_eq_add_one]
    omega

theorem resolveIdentity_fn_album (bn : String) (js : Json) (a al : String)
    (h : resolveIdentity true bn js = .ok (a, al)) : al = a ∨ al ≠ "" := by
  unfold resolveIdentity at h
  simp only [if_true] at h
  split at h
  · cases h
  · injection h with h1
    injection h1 with h2 h3
    subst h2
    by_cases he : slugify ⟨stripL ((splitOnSub (stripL (rsplitHeadL '-' bn.data))
        " - ".data).getD 1 [])⟩ = ""
    · left
      rw [← h3, if_pos he]
    · right
      rw [← h3, if_neg he]
      exact he

theorem processItem_completed_logClosed (cfg : Config) (ffmpeg : Nat → Except Unit String)
    (it : Item) (eff : ItemEffects)
    (h : processItem cfg ffmpeg it = .completed eff) : eff.logClosed = true := by
  unfold processItem at h
  repeat' split at h
  all_goals try simp only [] at h
  all_goals try (repeat' split at h)
  all_goals first
    | (injection h with h1; rw [← h1])
    | injection h

theorem processItem_skipped_logOpen (cfg : Config) (ffmpeg : Nat → Except Unit String)
    (it : Item) (eff : ItemEffects)
    (h : processItem cfg ffmpeg it = .skippedNoChapters eff) :
    eff.logClosed = false ∧ eff.logOpened = true := by
  unfold processItem at h
  repeat' split at h
  all_goals try simp only [] at h
  all_goals try (repeat' split at h)
  all_goals first
    | (injection h with h1; rw [← h1]; exact ⟨rfl, rfl⟩)
    | injection h

theorem exceptOk_bind {ε α β : Type} (a : α) (f : α → Except ε β) :
    (Except.ok a : Except ε α) >>= f = f a := rfl

theorem liftE_ok {α : Type} (eff : ItemEffects) (a : α) :
    liftE eff (Except.ok a : Except PyErr α) = .ok a := rfl

theorem chapterWF_elim (c : Json) (h : chapterWF c = true) :
    ∃ (a b : Int) (t : String), jsSubscript c "start_time" = .ok (.num a) ∧
      jsSubscript c "end_time" = .ok (.num b) ∧ jsSubscript c "title" = .ok (.str t) := by
  unfold chapterWF at h
  split at h
  · exact ⟨_, _, _, by assumption, by assumption, by assumption⟩
  · exact absurd h (by simp)

theorem segStep_ok (cfg : Config) (ffmpeg : Nat → Except Unit String)
    (artist album : String) (i : Nat) (ch : Json) (eff : ItemEffects) (out : String)
    (hg : cfg.genCue = false) (hn : cfg.noWrite = false)
    (hwf : chapterWF ch = true) (hok : ffmpeg i = .ok out) :
    ∃ eff', segStep cfg ffmpeg artist album i ch eff = .ok eff' ∧
      eff'.logClosed = eff.logClosed ∧ eff'.logOpened = eff.logOpened ∧
      eff'.ffmpegCalls = eff.ffmpegCalls + 1 ∧
      eff'.outFiles.length = eff.outFiles.length + 1 := by
  obtain ⟨a, b, t, h1, h2, h3⟩ := chapterWF_elim ch hwf
  simp only [segStep, h1, h2, h3, liftE_ok, exceptOk_bind, asSeconds, hg, hn,
    Bool.false_eq_true, if_false, hok]
  exact ⟨_, rfl, rfl, rfl, rfl, by simp⟩

theorem segStep_err (cfg : Config) (ffmpeg : Nat → Except Unit String)
    (artist album : String) (i : Nat) (ch : Json) (eff : ItemEffects)
    (hg : cfg.genCue = false) (hn : cfg.noWrite = false)
    (hwf : chapterWF ch = true) (herr : ffmpeg i = .error ()) :
    ∃ eff', segStep cfg ffmpeg artist album i ch eff = .error (.calledProcessError, eff') ∧
      eff'.logClosed = eff.logClosed ∧ eff'.logOpened = eff.logOpened ∧
      eff'.ffmpegCalls = eff.ffmpegCalls + 1 ∧
      eff'.outFiles = eff.outFiles := by
  obtain ⟨a, b, t, h1, h2, h3⟩ := chapterWF_elim ch hwf
  simp only [segStep, h1, h2, h3, liftE_ok, exceptOk_bind, asSeconds, hg, hn,
    Bool.false_eq_true, if_false, herr]
  exact ⟨_, rfl, rfl, rfl, rfl, rfl⟩

theorem segLoop_err (cfg : Config) (ffmpeg : Nat → Except Unit String)
    (artist album : String)
    (hg : cfg.genCue = false) (hn : cfg.noWrite = false) :
    ∀ (chs : List Json) (i : Nat) (eff : ItemEffects) (k : Nat),
      (∀ c ∈ chs, chapterWF c = true) → k < chs.length →
      (∀ j, j < k → ∃ o, ffmpeg (i + j) = .ok o) → ffmpeg (i + k) = .error () →
      ∃ eff', segLoop cfg ffmpeg artist album i chs eff = .error (.calledProcessError, eff') ∧
        eff'.logClosed = eff.logClosed ∧ eff'.logOpened = eff.logOpened ∧
        eff'.ffmpegCalls = eff.ffmpegCalls + k + 1 ∧
        eff'.outFiles.length = eff.outFiles.length + k := by
  intro chs
  induction chs with
  | nil => intro i eff k _ hk; simp at hk
  | cons ch rest ih =>
    intro i eff k hwf hk hpre herr
    cases k with
    | zero =>
      obtain ⟨eff', hstep, p1, p2, p3, p4⟩ :=
        segStep_err cfg ffmpeg artist album i ch eff hg hn (hwf ch (by simp))
          (by simpa using herr)
      refine ⟨eff', ?_, p1, p2, by omega, by simp [p4]⟩
      unfold segLoop
      rw [hstep]
    | succ k' =>
      obtain ⟨o, ho⟩ := hpre 0 (by omega)
      obtain ⟨eff1, hstep, p1, p2, p3, p4⟩ :=
        segStep_ok cfg ffmpeg artist album i ch eff o hg hn (hwf ch (by simp))
          (by simpa using ho)
      obtain ⟨eff', hrec, q1, q2, q3, q4⟩ :=
        ih (i + 1) eff1 k' (fun c hc => hwf c (List.mem_cons_of_mem ch hc))
          (by simpa using hk)
          (fun j hj => by
            obtain ⟨o2, ho2⟩ := hpre (j + 1) (by omega)
            exact ⟨o2, by rw [show i + 1 + j = i + (j + 1) from by omega]; exact ho2⟩)
          (by rw [show i + 1 + k' = i + (k' + 1) from by omega]; exact herr)
      refine ⟨eff', ?_, by rw [q1, p1], by rw [q2, p2], by rw [q3, p3]; omega,
        by rw [q4, p4]; omega⟩
      unfold segLoop
      rw [hstep]
      exact hrec

theorem processItem_skip (cfg : Config) (ffmpeg : Nat → Except Unit String) (it : Item)
    (artist album : String) (ch : Json)
    (hm : it.m4aExists = true)
    (hid : resolveIdentity cfg.fnTags it.baseName it.js = .ok (artist, album))
    (hch : jsSubscript it.js "chapters" = .ok ch)
    (hit : isIterable ch = false) :
    processItem cfg ffmpeg it = .skippedNoChapters
      { logOpened := true, logClosed := false,
        logLines := ["\n\n==============================", "\n\nProcessing " ++ album,
          "\n\n\nSkipping " ++ album ++ ", Chapters info not found."],
        cueWrites := [], dirsCreated := ["logs"], ffmpegCalls := 0, outFiles := [] } := by
  simp [processItem, hm, hid, hch, hit]

theorem runBatchFrom_skip (cfg : Config) (oracle : Nat → Nat → Except Unit String)
    (j : Nat) (it : Item) (rest : List Item) (eff : ItemEffects)
    (hstep : processItem cfg (oracle j) it = .skippedNoChapters eff) :
    runBatchFrom cfg oracle j (it :: rest) =
      .skippedNoChapters eff :: runBatchFrom cfg oracle (j + 1) rest := by
  simp [runBatchFrom, hstep]

theorem processItem_split_err (cfg : Config) (ffmpeg : Nat → Except Unit String) (it : Item)
    (artist album : String) (chs : List Json) (k : Nat)
    (hg : cfg.genCue = false) (hn : cfg.noWrite = false)
    (hm : it.m4aExists = true)
    (hid : resolveIdentity cfg.fnTags it.baseName it.js = .ok (artist, album))
    (hch : jsSubscript it.js "chapters" = .ok (.arr chs))
    (hwf : ∀ c ∈ chs, chapterWF c = true)
    (hk : k < chs.length)
    (hpre : ∀ j, j < k → ∃ o, ffmpeg j = .ok o)
    (herr : ffmpeg k = .error ()) :
    ∃ eff, processItem cfg ffmpeg it = .raised .calledProcessError eff ∧
      eff.logClosed = false ∧ eff.logOpened = true ∧
      eff.ffmpegCalls = k + 1 ∧ eff.outFiles.length = k := by
  obtain ⟨eff', hloop, q1, q2, q3, q4⟩ :=
    segLoop_err cfg ffmpeg artist album hg hn chs 0
      { logOpened := true, logClosed := false,
        logLines := ["\n\n==============================", "\n\nProcessing " ++ album,
          "\nOutput directory name: " ++ artist ++ "/" ++ album],
        cueWrites := [], dirsCreated := ["logs", artist, artist ++ "/" ++ album],
        ffmpegCalls := 0, outFiles := [] }
      k hwf hk
      (fun j hj => by simpa using hpre j hj)
      (by simpa using herr)
  refine ⟨eff', ?_, by simpa using q1, by simpa using q2, by simpa using q3, by simpa using q4⟩
  simp only [processItem, hm, hid, hch, hg, hn, isIterable, iterElems,
    Bool.not_true, Bool.false_eq_true, if_false, Bool.not_false, if_true]
  simp only [List.cons_append, List.nil_append, List.append_nil]
  rw [hloop]

/-- Claim C1 (corrected: the original also covered an absent `chapters`
key, but `js["chapters"]` raises `KeyError` there — see the
counterexample): for every item whose parsed metadata has `chapters`
present but not iterable (e.g. `null`), the guard signals "no chapters",
the skip is logged, no output file or cue stanza is produced for that
item, and the batch continues with the next item without crashing. -/
theorem C1_chapters_guard_amended (cfg : Config) (oracle : Nat → Nat → Except Unit String)
    (j : Nat) (it : Item) (rest : List Item) (artist album : String) (ch : Json)
    (hm : it.m4aExists = true)
    (hid : resolveIdentity cfg.fnTags it.baseName it.js = .ok (artist, album))
    (hch : jsSubscript it.js "chapters" = .ok ch)
    (hit : isIterable ch = false) :
    processItem cfg (oracle j) it = .skippedNoChapters
      { logOpened := true, logClosed := false,
        logLines := ["\n\n==============================", "\n\nProcessing " ++ album,
          "\n\n\nSkipping " ++ album ++ ", Chapters info not found."],
        cueWrites := [], dirsCreated := ["logs"], ffmpegCalls := 0, outFiles := [] } ∧
    runBatchFrom cfg oracle j (it :: rest) =
      .skippedNoChapters
        { logOpened := true, logClosed := false,
          logLines := ["\n\n==============================", "\n\nProcessing " ++ album,
            "\n\n\nSkipping " ++ album ++ ", Chapters info not found."],
          cueWrites := [], dirsCreated := ["logs"], ffmpegCalls := 0, outFiles := [] } ::
        runBatchFrom cfg oracle (j + 1) rest := by
  have h := processItem_skip cfg (oracle j) it artist album ch hm hid hch hit
  exact ⟨h, runBatchFrom_skip cfg oracle j it rest _ h⟩

/-- Claim C1 witness: the amended guarantee at a concrete item whose
metadata has `"chapters": null`. -/
theorem C1_chapters_guard_witness :
    processItem cfgNW (oracleOkDef 0) itemNoChap = .skippedNoChapters effSkipT ∧
    runBatchFrom cfgNW oracleOkDef 0 [itemNoChap] =
      .skippedNoChapters effSkipT :: runBatchFrom cfgNW oracleOkDef 1 [] :=
  C1_chapters_guard_amended cfgNW oracleOkDef 0 itemNoChap [] "A" "T" Json.null
    rfl (by decide) rfl rfl

/-- Claim C1 counterexample: with the `chapters` key absent, the lookup
`js["chapters"]` raises `KeyError`, the skip is not logged, the item is
not skipped, and the batch stops — the second (processable) item never
appears in the result. -/
theorem C1_counterexample :
    runBatch cfgNW oracleOkDef [itemNoKey, itemNoChap] =
      [.raised (.keyError "chapters") effOpenT] := by decide

/-- Claim C2 (code bug): the claim (and the spec's intent) is that
`HMSToMS` folds whole hours into minutes at 60 minutes per hour, so the
display of 7200 seconds, `"2:00:00"`, should give minutes field `120`.
The code's loop `for h in range(timeArr[0] - 1)` folds `hours - 1`
increments: `"2:00:00"` yields `"60:00"` (and `"1:05:30"` yields
`"05:30"`, folding nothing), not `"120:00"`. -/
theorem C2_hour_folding_off_by_one :
    HMSToMS "2:00:00" = .ok "60:00" ∧ HMSToMS "1:05:30" = .ok "05:30" ∧
    ¬ HMSToMS "2:00:00" = .ok "120:00" := by decide

/-- Claim C3 (corrected: the original quantified over every `d ≥ 0` and
claimed a `"D:HH:MM:SS"` display for ≥ 24 h, but `str(timedelta)` renders
`"1 day, 0:00:00"`, whose first field is not numeric — see the
counterexample): for every duration `0 ≤ d < 86400` seconds, the
composition `HMSToMS (secondsToHMS d)` is defined and produces a
two-field `MM:SS` string. -/
theorem C3_composition_amended (d : Nat) (hd : d < 86400) :
    ∃ out : String, HMSToMS (secondsToHMS d) = Except.ok out ∧
      (splitOnChar ':' out.data).length = 2 := by
  refine ⟨_, HMSToMS_secondsToHMS d hd, ?_⟩
  rw [show (String.mk (pyZfillL 2 (natDigits
        (if d / 3600 = 0 then d % 3600 / 60 else d % 3600 / 60 + 60 * (d / 3600 - 1))) ++
      ':' :: pyZfillL 2 (natDigits (d % 60)))).data =
      pyZfillL 2 (natDigits
        (if d / 3600 = 0 then d % 3600 / 60 else d % 3600 / 60 + 60 * (d / 3600 - 1))) ++
      ':' :: pyZfillL 2 (natDigits (d % 60)) from rfl]
  rw [splitOnChar_two _ _ _
    (colon_not_mem_of_digits _ (zfill_digits 2 _ (natDigits_digits _)))
    (colon_not_mem_of_digits _ (zfill_digits 2 _ (natDigits_digits _)))]
  rfl

/-- Claim C3 witness: the amended composition at 7261 s (`"2:01:01"`,
which the code maps to the two-field `"61:01"`). -/
theorem C3_composition_witness :
    7261 < 86400 ∧ ∃ out : String, HMSToMS (secondsToHMS 7261) = Except.ok out ∧
      (splitOnChar ':' out.data).length = 2 :=
  ⟨by decide, C3_composition_amended 7261 (by decide)⟩

/-- Claim C3 counterexample: at exactly one day the display is
`"1 day, 0:00:00"` (not `"D:HH:MM:SS"`), and the composition raises
`ValueError` in `int("1 day, 0")` instead of producing an `MM:SS`
string. -/
theorem C3_counterexample :
    secondsToHMS 86400 = "1 day, 0:00:00" ∧
    HMSToMS (secondsToHMS 86400) = Except.error PyErr.valueError := by decide

/-- Claim C4 (corrected: the original asserted the empty-album fallback
in both identity modes, but the metadata branch `album = slugify(js["title"])`
has no fallback — see the counterexample): in filename mode
(`-fn`), the resolved album falls back to the artist label whenever the
derived album slug is empty, so the album can only be empty when the
artist is too. -/
theorem C4_album_fallback_amended (bn : String) (js : Json) (a al : String)
    (h : resolveIdentity true bn js = .ok (a, al)) : al = a ∨ al ≠ "" := by
  unfold resolveIdentity at h
  simp only [if_true] at h
  split at h
  · cases h
  · injection h with h1
    injection h1 with h2 h3
    subst h2
    by_cases he : slugify ⟨stripL ((splitOnSub (stripL (rsplitHeadL '-' bn.data))
        " - ".data).getD 1 [])⟩ = ""
    · left
      rw [← h3, if_pos he]
    · right
      rw [← h3, if_neg he]
      exact he

/-- Claim C4 witness: `"X - ?? - 1"` derives an album slug that
normalizes to the empty string (`"??"` is stripped away), and the
resolver falls back to the artist `"X"`. -/
theorem C4_album_fallback_witness : ("X" : String) = "X" ∨ ("X" : String) ≠ "" :=
  C4_album_fallback_amended "X - ?? - 1" Json.null "X" "X" (by decide)

/-- Claim C4 counterexample: in metadata mode an empty `title` gives an
empty album while the artist is `"X"` — no fallback is applied, so the
resolved album label is empty. -/
theorem C4_counterexample :
    resolveIdentity false "b" jsEmptyTitle = Except.ok ("X", "") ∧ ("" : String) ≠ "X" := by
  decide

theorem slugify_eval (value : String) (keep : Bool) (r1 rep : List (String × String))
    (h : dictUpdate r1 defaultReplace = rep) :
    slugify value r1 keep =
      ⟨if keep then
          collapseWS (stripL ((applyRepl rep
            (value.data.filter (fun c => c.toNat < 128))).filter allowedSlug))
        else
          collapseDashWS (stripL ((applyRepl rep
            (value.data.filter (fun c => c.toNat < 128))).filter allowedSlug))⟩ := by
  simp only [slugify, slugifyL]
  rw [h]

/-- Claim C5 (corrected: the original said caller-supplied replacements
win on collision, but `replace.update(defaults)` overwrites caller
entries — see the counterexample): for every caller-supplied value for
one of the default keys `"["`, `"]"`, `":"`, `"()"`, the fixed default
substitution is the one applied. -/
theorem C5_default_wins_amended (v w u z : String) :
    slugify "[" [("[", v)] = "(" ∧ slugify "]" [("]", w)] = ")" ∧
    slugify ":" [(":", u)] = "_" ∧ slugify "a()b" [("()", z)] = "ab" := by
  refine ⟨?_, ?_, ?_, ?_⟩
  · rw [slugify_eval "[" true [("[", v)]
      [("[", "("), ("]", ")"), (":", "_"), ("()", "")] rfl]
    decide
  · rw [slugify_eval "]" true [("]", w)]
      [("]", ")"), ("[", "("), (":", "_"), ("()", "")] rfl]
    decide
  · rw [slugify_eval ":" true [(":", u)]
      [(":", "_"), ("[", "("), ("]", ")"), ("()", "")] rfl]
    decide
  · rw [slugify_eval "a()b" true [("()", z)]
      [("()", ""), ("[", "("), ("]", ")"), (":", "_")] rfl]
    decide

/-- Claim C5 counterexample: the caller asks for `"[" → "-"`, but the
result is the default `"("`, not `"-"`. -/
theorem C5_counterexample :
    slugify "[" [("[", "-")] = "(" ∧ ("(" : String) ≠ "-" := by decide

/-- Claim C6 (corrected: `normalize` is not idempotent in general — see
the counterexample `"(.)"` — because the character strip can create a new
`"()"` pair that only the second pass deletes): `normalize` is idempotent
on every string whose normalized form does not contain the substring
`"()"`. -/
theorem C6_idempotent_amended (x : String)
    (h : ¬ ['(', ')'] <:+: (slugify x).data) :
    slugify (slugify x) = slugify x :=
  congrArg String.mk (slugifyL_idem x.data h)

/-- Claim C6 witness: idempotence at `"a b"`, whose slug contains no
`"()"`. -/
theorem C6_idempotent_witness : slugify (slugify "a b") = slugify "a b" :=
  C6_idempotent_amended "a b" (by decide)

/-- Claim C6 counterexample: `slugify "(.)" = "()"` (the strip deletes
`'.'` and creates a parenthesis pair), and a second application deletes
the pair, so `normalize (normalize "(.)") ≠ normalize "(.)"`. -/
theorem C6_counterexample :
    slugify "(.)" = "()" ∧ slugify (slugify "(.)") = "" ∧
    slugify (slugify "(.)") ≠ slugify "(.)" := by decide

/-- Claim C7 (confirmed): for every item with `N` chapters, the built
plan assigns track numbers exactly `1..N` in chapter-sequence order —
chapter `i` gets track `i + 1` regardless of title content, with no
gap-filling or renumbering — and the output file name of each segment is
`"{track}. {normalizedTitle}.m4a"`. -/
theorem C7_track_numbers (chs : List Chapter) :
    (buildPlan chs).map SegmentPlan.track = (List.range chs.length).map (fun k => k + 1) ∧
    ∀ i : Nat, (buildPlan chs).get? i = (chs.get? i).map (fun ch =>
      { track := i + 1
        title := slugify ch.title
        startTime := secondsToHMS ch.start_time
        endTime := secondsToHMS ch.end_time
        fileName := pyStrNat (i + 1) ++ ". " ++ slugify ch.title ++ ".m4a" }) := by
  constructor
  · have h := buildPlanFrom_track chs 0
    simpa [buildPlan] using h
  · intro i
    have h := buildPlanFrom_get? chs 0 i
    simp only [buildPlan]
    rw [h]
    congr 1
    funext ch
    simp [mkSegment]

/-- Claim C8 (corrected: the original required the log closed on every
exit path, but the early no-chapters skip executes `continue` without
reaching `log.close()` — see the counterexample): the log file is closed
on the normal completion path, while the early no-chapters skip returns
past the item boundary with the log still open. -/
theorem C8_log_close_amended (cfg : Config) (ffmpeg : Nat → Except Unit String)
    (it : Item) (eff : ItemEffects) :
    (processItem cfg ffmpeg it = .completed eff → eff.logClosed = true) ∧
    (processItem cfg ffmpeg it = .skippedNoChapters eff → eff.logClosed = false) :=
  ⟨processItem_completed_logClosed cfg ffmpeg it eff,
   fun h => (processItem_skipped_logOpen cfg ffmpeg it eff h).1⟩

/-- Claim C8 witness: the amended statement at a concrete item skipped
for missing chapters — its log ends up open. -/
theorem C8_log_close_witness : effSkipT.logClosed = false :=
  (C8_log_close_amended cfgNW (oracleOkDef 0) itemNoChap effSkipT).2 (by decide)

/-- Claim C8 counterexample: on the early no-chapters skip the item's
log file was opened but is not closed before control returns past the
item boundary. -/
theorem C8_counterexample :
    processItem cfgNW (oracleOkDef 0) itemNoChap = .skippedNoChapters effSkipT ∧
    effSkipT.logOpened = true ∧ effSkipT.logClosed = false := by decide

/-- Claim C9 (confirmed): in split mode, a nonzero exit of the external
transcoder on segment `k` of an item propagates uncaught out of both the
segment loop and the item loop: the batch result is the single raised
`CalledProcessError`, so no later item is processed; only `k` output
files exist (the remaining segments were not processed), exactly `k + 1`
transcoder calls were made, and that item's log file is not closed. -/
theorem C9_transcode_failure_propagates (fnT : Bool) (it : Item) (rest : List Item)
    (oracle : Nat → Nat → Except Unit String)
    (artist album : String) (chs : List Json) (k : Nat)
    (hm : it.m4aExists = true)
    (hid : resolveIdentity fnT it.baseName it.js = .ok (artist, album))
    (hch : jsSubscript it.js "chapters" = .ok (.arr chs))
    (hwf : ∀ c ∈ chs, chapterWF c = true)
    (hk : k < chs.length)
    (hpre : ∀ j, j < k → ∃ o, oracle 0 j = .ok o)
    (herr : oracle 0 k = .error ()) :
    ∃ eff, runBatch { genCue := false, fnTags := fnT, noWrite := false } oracle (it :: rest) =
        [.raised .calledProcessError eff] ∧
      eff.logClosed = false ∧ eff.ffmpegCalls = k + 1 ∧ eff.outFiles.length = k := by
  obtain ⟨eff, hpi, e1, e2, e3, e4⟩ :=
    processItem_split_err { genCue := false, fnTags := fnT, noWrite := false } (oracle 0)
      it artist album chs k rfl rfl hm hid hch hwf hk hpre herr
  exact ⟨eff, by simp [runBatch, runBatchFrom, hpi], e1, e3, e4⟩

/-- Claim C9 witness: a two-chapter item whose second transcode exits
nonzero, followed by another item; the batch result is the single raise,
with one output file, two transcoder calls, and the log left open. -/
theorem C9_transcode_failure_witness :
    ∃ eff, runBatch { genCue := false, fnTags := false, noWrite := false } oracleFail1
        [itemTwoCh, itemNoChap] = [.raised .calledProcessError eff] ∧
      eff.logClosed = false ∧ eff.ffmpegCalls = 2 ∧ eff.outFiles.length = 1 :=
  C9_transcode_failure_propagates false itemTwoCh [itemNoChap] oracleFail1 "A" "T"
    [chapJ 0 10 "One", chapJ 10 20 "Two"] 1 rfl (by decide) rfl (by decide)
    (by decide)
    (fun j hj => ⟨"out", by
      have h0 : j = 0 := by omega
      subst h0
      rfl⟩)
    rfl

/-- Claim C10 (confirmed): beyond the three documented substitutions,
`normalize` deletes the occurrences of the literal substring `"()"`
present after bracket substitution — `"[]"` and `"()"` normalize to the
empty string rather than a parenthesis pair, the deletion also applies
inside longer text, and it is a single left-to-right pass (a pair formed
by the deletion itself, as in `"(())"`, survives). -/
theorem C10_paren_pair_deletion :
    slugify "[]" = "" ∧ slugify "()" = "" ∧ slugify "x() ()y" = "x y" ∧
    slugify "(())" = "()" := by decide
